import Mathlib

/-!
Verification of the MicrotaskFlowState voice-to-task pipeline.

This file gives a shallow embedding of the core of the repository
(src/src-tauri/src): the heuristic action extractor of ollama.rs, the
whisper model cache and resampler of whisper.rs, the task reconciliation
of database.rs, and the model downloader of whisper.rs, together with
theorems settling the specification claims about them.

Rust strings are modelled as lists of characters (Str); byte indices of
Rust slicing coincide with character indices for the ASCII keywords the
code matches on, and the Rust byte-length calls are modelled by an
explicit UTF-8 byte count.  Rust char::to_lowercase / to_uppercase are
modelled by the ASCII Char.toLower / Char.toUpper (all keyword tables in
the source are ASCII).  f64 arithmetic in the resampler is modelled by
exact rational arithmetic.
-/

namespace FlowState

/-- A Rust string, modelled as its list of characters. -/
abbrev Str := List Char

/-- Rust str::to_lowercase, restricted to the ASCII mapping. -/
def lowerStr (s : Str) : Str := s.map Char.toLower

/-- Whitespace as tested by Rust char::is_whitespace, ASCII fragment. -/
def isRustWS (c : Char) : Bool :=
  c = ' ' || c = '\t' || c = '\n' || c = '\r'

/-- Rust str::trim: drop whitespace from both ends. -/
def trimStr (s : Str) : Str :=
  ((s.dropWhile isRustWS).reverse.dropWhile isRustWS).reverse

/-- UTF-8 byte width of one character (Rust char::len_utf8). -/
def charBytes (c : Char) : Nat :=
  if c.toNat < 0x80 then 1
  else if c.toNat < 0x800 then 2
  else if c.toNat < 0x10000 then 3
  else 4

/-- Rust str::len: the UTF-8 byte length of a string. -/
def strBytes (s : Str) : Nat := (s.map charBytes).sum

/-- Rust str::find for a string pattern: index of the leftmost occurrence. -/
def findSub (hay pat : Str) : Option Nat :=
  (List.range (hay.length + 1)).find? (fun i => pat.isPrefixOf (hay.drop i))

/-- Rust str::contains for a string pattern. -/
def containsSub (hay pat : Str) : Bool := (findSub hay pat).isSome

/-- Rust char::is_ascii_punctuation. -/
def isAsciiPunct (c : Char) : Bool :=
  (0x21 ≤ c.toNat && c.toNat ≤ 0x2f) ||
  (0x3a ≤ c.toNat && c.toNat ≤ 0x40) ||
  (0x5b ≤ c.toNat && c.toNat ≤ 0x60) ||
  (0x7b ≤ c.toNat && c.toNat ≤ 0x7e)

/-- Rust str::split on a character class, keeping empty pieces. -/
def splitOnChar (p : Char → Bool) : Str → List Str
  | [] => [[]]
  | c :: rest =>
    if p c then [] :: splitOnChar p rest
    else match splitOnChar p rest with
      | [] => [[c]]
      | piece :: pieces => (c :: piece) :: pieces

/-- Worker for splitOnSub: scan left to right, emitting the accumulated
piece (reversed) at each non-overlapping hit of the pattern; a pending
skip count consumes the rest of a matched pattern without rescanning it. -/
def splitOnSubAux (pat : Str) : Str → Str → Nat → List Str
  | [], acc, _ => [acc.reverse]
  | c :: rest, acc, skip =>
    match skip with
    | n + 1 => splitOnSubAux pat rest acc n
    | 0 =>
      if pat.isPrefixOf (c :: rest) then
        acc.reverse :: splitOnSubAux pat rest [] (pat.length - 1)
      else
        splitOnSubAux pat rest (c :: acc) 0

/-- Rust str::split on a non-empty string pattern. -/
def splitOnSub (pat : Str) (s : Str) : List Str :=
  splitOnSubAux pat s [] 0

/-- A task action extracted from a voice transcript (ollama.rs TaskAction). -/
inductive TaskAction where
  | Add (text : Str)
  | Complete (text : Str)
  | Remove (text : Str)
deriving DecidableEq

/-- Keyword family indicating completion (ollama.rs complete_keywords). -/
def complete_keywords : List Str :=
  ["done with", "finished with", "completed", "finished", "done",
   "mark as done", "mark done", "check off", "crossed off",
   "i did", "i\x27ve done", "just did", "already did", "took care of",
   "handled", "sorted", "wrapped up"].map String.toList

/-- Keyword family indicating removal (ollama.rs remove_keywords). -/
def remove_keywords : List Str :=
  ["delete", "remove", "cancel", "get rid of", "drop", "forget about",
   "never mind", "scratch", "erase"].map String.toList

/-- Keyword family indicating addition (ollama.rs add_keywords). -/
def add_keywords : List Str :=
  ["add task", "new task", "create task", "add", "need to", "should",
   "must", "have to", "gotta", "got to", "want to", "going to",
   "reminder to", "remind me to", "don\x27t forget to"].map String.toList

/-- True when some keyword of the family occurs in the lowercased text. -/
def hasKw (fam : List Str) (tl : Str) : Bool := fam.any (containsSub tl)

/-- The complete family matched (ollama.rs has_complete). -/
def hasCompleteKw (tl : Str) : Bool := hasKw complete_keywords tl

/-- The remove family matched (ollama.rs has_remove). -/
def hasRemoveKw (tl : Str) : Bool := hasKw remove_keywords tl

/-- The add family matched (ollama.rs has_add). -/
def hasAddKw (tl : Str) : Bool := hasKw add_keywords tl

/-- The trailing completion test of parse_transcript_to_actions
(ollama.rs lines 107-114). -/
def trailingDonePattern (tl : Str) : Bool :=
  (" done".toList).isSuffixOf tl ||
  (" is done".toList).isSuffixOf tl ||
  (" are done".toList).isSuffixOf tl ||
  (" finished".toList).isSuffixOf tl ||
  (" is finished".toList).isSuffixOf tl ||
  (" completed".toList).isSuffixOf tl ||
  (" is completed".toList).isSuffixOf tl ||
  tl = "done".toList

/-- Strip the first matching suffix of the list, if any (the Rust loop
with break in extract_task_from_trailing_pattern). -/
def stripFirstSuffix (pats : List Str) (s : Str) : Str :=
  match pats.find? (fun p => p.isSuffixOf s) with
  | some p => s.take (s.length - p.length)
  | none => s

/-- Fixed list of leading determiners and prepositions stripped by
clean_task_text (ollama.rs prefixes_to_remove). -/
def prefixes_to_remove : List Str :=
  ["the ", "a ", "an ", "to ", "that ", "which "].map String.toList

/-- Strip trailing characters among . ! ? , (Rust trim_end_matches). -/
def trimTrailingPunct (s : Str) : Str :=
  (s.reverse.dropWhile (fun c => c = '.' || c = '!' || c = '?' || c = ',')).reverse

/-- ollama.rs clean_task_text: trim, run once through the leading-word
table stripping each entry that matches at that moment, trim trailing
punctuation, capitalize the first character, trim again. -/
def clean_task_text (text : Str) : Str :=
  let r0 := trimStr text
  let r1 := prefixes_to_remove.foldl
    (fun r p => if p.isPrefixOf (lowerStr r) then r.drop p.length else r) r0
  let r2 := trimTrailingPunct r1
  let r3 := match r2 with
    | [] => ([] : Str)
    | c :: rest => c.toUpper :: rest
  trimStr r3

/-- ollama.rs extract_task_from_trailing_pattern: strip the first matching
trailing completion suffix, then a leading article, then trim. -/
def extract_task_from_trailing_pattern (text : Str) : Str :=
  let trailing_patterns : List Str :=
    [" is completed", " is finished", " is done",
     " are completed", " are finished", " are done",
     " completed", " finished", " done"].map String.toList
  let result := stripFirstSuffix trailing_patterns text
  let rt := trimStr result
  let rl := lowerStr rt
  let cleaned :=
    if ("the ".toList).isPrefixOf rl then rt.drop 4
    else if ("that ".toList).isPrefixOf rl then rt.drop 5
    else rt
  trimStr cleaned

/-- The keyword-removal loop of extract_task_description: scan the table
in order and drop everything up to and including the first keyword of the
table that occurs anywhere in the lowercased transcript. -/
def dropThroughFirstKw (tl : Str) (transcript : Str) : List Str → Str
  | [] => transcript
  | kw :: rest =>
    match findSub tl kw with
    | some pos => transcript.drop (pos + kw.length)
    | none => dropThroughFirstKw tl transcript rest

/-- ollama.rs extract_task_description, at its single call site where the
table order is add_keywords, then complete_keywords, then remove_keywords. -/
def extract_task_description (transcript : Str) : Str :=
  clean_task_text
    (dropThroughFirstKw (lowerStr transcript) transcript
      (add_keywords ++ complete_keywords ++ remove_keywords))

/-- ollama.rs is_noise_transcript. -/
def is_noise_transcript (text : Str) : Bool :=
  let tl := lowerStr text
  let noise_phrases : List Str :=
    ["thank you", "thanks for watching", "thanks for listening",
     "subscribe", "like and subscribe", "please subscribe",
     "see you next time", "bye", "goodbye", "hello", "hi there",
     "um", "uh", "ah", "oh", "hmm", "you", "okay", "ok",
     "music", "applause", "laughter", "silence",
     ".", "..", "...", "!", "?",
     "[музыка]", "музыка", "[music]", "[applause]", "[laughter]",
     "[silence]", "[inaudible]", "[blank_audio]"].map String.toList
  (tl.head? = some '[' && tl.getLast? = some ']') ||
  noise_phrases.any (fun p => tl = p || trimStr tl = p) ||
  decide (strBytes (trimStr text) < 3) ||
  text.all (fun c => isRustWS c || isAsciiPunct c)

/-- The comma/period/semicolon and "and"/"и" split of the no-keyword path
(ollama.rs lines 129-133). -/
def splitParts (transcript : Str) : List Str :=
  ((splitOnChar (fun c => c = ',' || c = '.' || c = ';') transcript).flatMap
    (splitOnSub (" and ".toList))).flatMap
    (splitOnSub (" и ".toList))

/-- ollama.rs parse_transcript_to_actions. -/
def parse_transcript_to_actions (transcript : Str) : List TaskAction :=
  let tl := lowerStr transcript
  let has_complete := hasCompleteKw tl
  let has_remove := hasRemoveKw tl
  let has_add := hasAddKw tl
  let trailing := trailingDonePattern tl
  if trailing && !has_complete && !has_remove && !has_add &&
      !(extract_task_from_trailing_pattern tl).isEmpty then
    [TaskAction.Complete (extract_task_from_trailing_pattern tl)]
  else if !has_complete && !has_remove && !has_add && !trailing then
    (splitParts transcript).filterMap (fun part =>
      let task_text := clean_task_text part
      if !task_text.isEmpty && decide (3 ≤ strBytes task_text) &&
          !is_noise_transcript task_text then
        some (TaskAction.Add task_text)
      else none)
  else
    let task_text := extract_task_description transcript
    if task_text.isEmpty then []
    else if has_remove then [TaskAction.Remove task_text]
    else if has_complete then [TaskAction.Complete task_text]
    else if has_add then [TaskAction.Add task_text]
    else []

/-- Specification-side restatement of the no-keyword path of §4.5 step 4:
split the utterance, clean each part, and emit one Add action per part
that is nonempty, at least 3 bytes long, and not noise. -/
def noKeywordSplitResult (transcript : Str) : List TaskAction :=
  (splitParts transcript).filterMap (fun part =>
    let t := clean_task_text part
    if !t.isEmpty && decide (3 ≤ strBytes t) && !is_noise_transcript t then
      some (TaskAction.Add t)
    else none)

/-- Specification-side restatement of the keyword case as the code
realises it: take the first keyword of the fixed table (add keywords,
then complete keywords, then remove keywords) that occurs anywhere in the
lowercased utterance, discard through its leftmost occurrence, clean the
remainder, and emit one action by the priority Remove > Complete > Add,
or none when the cleaned remainder is empty. -/
def keywordCaseResult (transcript : Str) : List TaskAction :=
  let tl := lowerStr transcript
  let rem :=
    match (add_keywords ++ complete_keywords ++ remove_keywords).find?
        (fun kw => containsSub tl kw) with
    | some kw => transcript.drop ((findSub tl kw).getD 0 + kw.length)
    | none => transcript
  let t := clean_task_text rem
  if t.isEmpty then []
  else if hasRemoveKw tl then [TaskAction.Remove t]
  else if hasCompleteKw tl then [TaskAction.Complete t]
  else if hasAddKw tl then [TaskAction.Add t]
  else []

/-- Specification-side leading-word stripper for the amended cleaning
claim: one in-order pass over the fixed list, stripping each entry that
matches at the moment it is checked. -/
def stripLeadWords : List Str → Str → Str
  | [], s => s
  | p :: ps, s =>
    stripLeadWords ps (if p.isPrefixOf (lowerStr s) then s.drop p.length else s)

/-- Specification-side capitalization of the first character. -/
def capFirst : Str → Str
  | [] => []
  | c :: rest => c.toUpper :: rest

/-!  Resampler (whisper.rs resample).  Samples are rationals standing for
the f32/f64 values of the source; the arithmetic of the source is modelled
exactly. -/

/-- whisper.rs resample: identity when the rates agree, otherwise linear
interpolation at ratio from_rate/to_rate; the usize truncation of the
nonnegative f64 length is the natural floor. -/
def resample (samples : List ℚ) (from_rate to_rate : Nat) : List ℚ :=
  if from_rate = to_rate then samples
  else
    let ratio : ℚ := (from_rate : ℚ) / (to_rate : ℚ)
    let new_len : Nat := ⌊(samples.length : ℚ) / ratio⌋₊
    (List.range new_len).map (fun (i : Nat) =>
      let src_idx : ℚ := (i : ℚ) * ratio
      let idx : Nat := ⌊src_idx⌋₊
      let frac : ℚ := src_idx - (idx : ℚ)
      if idx + 1 < samples.length then
        samples.getD idx 0 * (1 - frac) + samples.getD (idx + 1) 0 * frac
      else if idx < samples.length then
        samples.getD idx 0
      else 0)

/-!  Model cache (whisper.rs WhisperCache).  A loaded WhisperContext is
modelled by a generation number: loading always produces a handle never
produced before, which the nextHandle counter witnesses.  The poisoned-lock
recovery is a concurrency artefact outside this sequential model. -/

/-- whisper.rs WhisperModelSize. -/
inductive WhisperModelSize where
  | Tiny
  | Base
  | Small
  | Medium
  | Large
deriving DecidableEq

/-- whisper.rs WhisperModelSize::filename. -/
def WhisperModelSize.filename : WhisperModelSize → String
  | .Tiny => "ggml-tiny.bin"
  | .Base => "ggml-base.bin"
  | .Small => "ggml-small.bin"
  | .Medium => "ggml-medium.bin"
  | .Large => "ggml-large-v3.bin"

/-- The single-slot cache state of WhisperCache: at most one
(size, loaded handle) pair, plus the next fresh handle generation. -/
structure WhisperCacheState where
  slot : Option (WhisperModelSize × Nat)
  nextHandle : Nat
deriving DecidableEq

/-- Every handle held in the slot was produced by an earlier load, so it
is smaller than the next fresh generation. -/
def WhisperCacheState.WF (st : WhisperCacheState) : Prop :=
  ∀ s h, st.slot = some (s, h) → h < st.nextHandle

/-- The load path of WhisperCache::get_or_create: check the model file,
load a fresh context, and replace the slot contents. -/
def loadModel (fileExists : WhisperModelSize → Bool) (st : WhisperCacheState)
    (model_size : WhisperModelSize) : Except String (Nat × WhisperCacheState) :=
  if fileExists model_size then
    Except.ok (st.nextHandle, ⟨some (model_size, st.nextHandle), st.nextHandle + 1⟩)
  else
    Except.error ("Model " ++ model_size.filename ++
      " not found. Please download it first from Settings.")

/-- whisper.rs WhisperCache::get_or_create: return the cached handle when
the slot already holds the requested size, otherwise load and replace. -/
def get_or_create (fileExists : WhisperModelSize → Bool) (st : WhisperCacheState)
    (model_size : WhisperModelSize) : Except String (Nat × WhisperCacheState) :=
  match st.slot with
  | some (cached_size, h) =>
    if cached_size = model_size then Except.ok (h, st)
    else loadModel fileExists st model_size
  | none => loadModel fileExists st model_size

/-!  Task store (database.rs).  SQLite state is modelled as the list of
task rows in rowid order plus the autoincrement counter; datetime strings
are modelled as natural timestamps counted in days so that the seven-day
window of get_all_tasks is now < completed_at + 7.  The connection sits
behind a non-reentrant mutex (Mutex of Connection), and every public
operation of database.rs begins with db.conn.lock().unwrap(); the model
therefore carries the mutex state in the Database value and gives each
operation a DbOutcome: locking a mutex the caller already holds blocks
forever, which the deadlock outcome records.  A call that returns
releases its own guard, so its result state has the mutex free. -/

/-- Outcome of a call into the task store: the call either returns a
value, or blocks forever trying to lock the connection mutex that its
caller already holds. -/
inductive DbOutcome (α : Type) where
  | returns (val : α)
  | deadlock
deriving DecidableEq

/-- database.rs Task. -/
structure DbTask where
  id : Nat
  text : Str
  completed : Bool
  created_at : Nat
  completed_at : Option Nat
deriving DecidableEq

/-- The tasks table (rowid order), the autoincrement counter, and the
state of the connection mutex. -/
structure Database where
  tasks : List DbTask
  nextId : Nat
  connLocked : Bool
deriving DecidableEq

/-- SQLite LIKE with wildcards around the pattern: substring containment,
case-insensitive on ASCII as SQLite LIKE is by default. -/
def likeMatch (text pat : Str) : Bool :=
  containsSub (lowerStr text) (lowerStr pat)

/-- database.rs add_task: lock the connection, INSERT an incomplete row
and return it, releasing the guard. -/
def add_task (db : Database) (text : Str) (now : Nat) :
    DbOutcome (DbTask × Database) :=
  if db.connLocked then .deadlock
  else
    let t : DbTask := ⟨db.nextId, text, false, now, none⟩
    .returns (t, ⟨db.tasks ++ [t], db.nextId + 1, false⟩)

/-- database.rs toggle_task: lock the connection, flip the completed flag
of the row with the given id, setting completed_at exactly when the row
becomes completed, and release the guard. -/
def toggle_task (db : Database) (id : Nat) (now : Nat) : DbOutcome Database :=
  if db.connLocked then .deadlock
  else .returns ⟨db.tasks.map (fun t =>
    if t.id = id then
      if t.completed then { t with completed := false, completed_at := none }
      else { t with completed := true, completed_at := some now }
    else t), db.nextId, false⟩

/-- The WHERE clause of get_all_tasks: incomplete, or completed within
the last seven days. -/
def recentOrActive (now : Nat) (t : DbTask) : Bool :=
  !t.completed ||
    (match t.completed_at with
     | some c => decide (now < c + 7)
     | none => false)

/-- The ORDER BY of get_all_tasks: completed ascending, then created_at
descending. -/
def taskLE (a b : DbTask) : Bool :=
  if a.completed = b.completed then decide (b.created_at ≤ a.created_at)
  else !a.completed

/-- Ordered insertion for the ORDER BY model. -/
def insertTask (a : DbTask) : List DbTask → List DbTask
  | [] => [a]
  | b :: l => if taskLE a b then a :: b :: l else b :: insertTask a l

/-- Insertion sort realising the ORDER BY of get_all_tasks. -/
def sortTasks : List DbTask → List DbTask
  | [] => []
  | a :: l => insertTask a (sortTasks l)

/-- database.rs get_all_tasks: lock the connection, filter to
active-or-recent rows and sort by completed ascending, created_at
descending, releasing the guard. -/
def get_all_tasks (db : Database) (now : Nat) : DbOutcome (List DbTask) :=
  if db.connLocked then .deadlock
  else .returns (sortTasks (db.tasks.filter (recentOrActive now)))

/-- database.rs get_task_by_id: lock the connection and look the row up. -/
def get_task_by_id (db : Database) (id : Nat) : DbOutcome (Option DbTask) :=
  if db.connLocked then .deadlock
  else .returns (db.tasks.find? (fun t => t.id = id))

/-- database.rs find_and_complete_task: the guard taken on entry
(database.rs line 152) stays held for the whole body, so every nested
helper call receives the database with the mutex still locked and tries
to lock it again.  The fuzzy search itself runs directly on the held
connection.  On the match path the row is toggled and read back; on the
fallback path the text is inserted, the head of get_all_tasks taken and
toggled; a returns-none result models the unwrap panic of the source when
the freshly added row cannot be read back.  The bodies past each nested
call carry the deadlock-free semantics of the respective statements; the
deadlock theorem below shows they are unreachable. -/
def find_and_complete_task (db : Database) (text : Str) (now : Nat) :
    DbOutcome (Option (DbTask × Database)) :=
  if db.connLocked then .deadlock
  else
    let held : Database := ⟨db.tasks, db.nextId, true⟩
    match db.tasks.find? (fun t => !t.completed && likeMatch t.text text) with
    | some t =>
      match toggle_task held t.id now with
      | .deadlock => .deadlock
      | .returns db2 =>
        match get_task_by_id db2 t.id with
        | .deadlock => .deadlock
        | .returns o => .returns (o.map (fun t2 => (t2, db2)))
    | none =>
      match add_task held text now with
      | .deadlock => .deadlock
      | .returns (_, db1) =>
        match get_all_tasks db1 now with
        | .deadlock => .deadlock
        | .returns all =>
          match all.head? with
          | none => .returns none
          | some t =>
            match toggle_task db1 t.id now with
            | .deadlock => .deadlock
            | .returns db2 =>
              match get_task_by_id db2 t.id with
              | .deadlock => .deadlock
              | .returns o => .returns (o.map (fun t2 => (t2, db2)))

/-!  Model downloader (whisper.rs download_model).  The HTTP byte stream
is modelled as a list of chunk results; the canonical model path holds an
optional file content.  The progress callback does not affect the file
system and is omitted. -/

/-- The file at the canonical model path: none when absent. -/
structure ModelStore where
  fileAt : Option (List Nat)
deriving DecidableEq

/-- The chunk-writing loop of download_model: append each good chunk to
the created file; a stream error aborts with the file left as it is. -/
def downloadLoop (st : ModelStore) :
    List (Except String (List Nat)) → Except String Unit × ModelStore
  | [] => (Except.ok (), st)
  | Except.ok c :: rest => downloadLoop ⟨st.fileAt.map (· ++ c)⟩ rest
  | Except.error e :: _ => (Except.error ("Download error: " ++ e), st)

/-- whisper.rs download_model from the point the response is good: return
at once when the file already exists, otherwise create the file and run
the chunk loop. -/
def download_model (st : ModelStore)
    (stream : List (Except String (List Nat))) : Except String Unit × ModelStore :=
  match st.fileAt with
  | some _ => (Except.ok (), st)
  | none => downloadLoop ⟨some []⟩ stream

/-! Theorems settling the claims. -/

/-- C6: resampling is the identity when the source and target rates are
equal: resample(x, r, r) = x for every buffer x and rate r. -/
theorem resample_identity (x : List ℚ) (r : Nat) : resample x r r = x := by
  simp [resample]

/-- C7: for positive distinct rates the output length of resample is
exactly floor(len(x) * r2 / r1), hence in particular within the claimed
rounding tolerance of 1. -/
theorem resample_length (x : List ℚ) (r1 r2 : Nat)
    (h1 : 0 < r1) (h2 : 0 < r2) (hne : r1 ≠ r2) :
    (resample x r1 r2).length = x.length * r2 / r1 := by
  have hr1 : ((r1 : ℚ)) ≠ 0 := Nat.cast_ne_zero.mpr h1.ne'
  have hr2 : ((r2 : ℚ)) ≠ 0 := Nat.cast_ne_zero.mpr h2.ne'
  have hcast : (x.length : ℚ) / ((r1 : ℚ) / (r2 : ℚ))
      = ((x.length * r2 : ℕ) : ℚ) / ((r1 : ℕ) : ℚ) := by
    push_cast
    field_simp
  simp only [resample, if_neg hne, List.length_map, List.length_range]
  rw [hcast, Nat.floor_div_nat, Nat.floor_natCast]

/-- C7 witness: resampling a four-sample buffer from rate 2 to rate 1
yields floor(4 * 1 / 2) = 2 samples. -/
theorem resample_length_witness :
    (resample ([0, 1, 0, 1] : List ℚ) 2 1).length = 2 := by
  have h := resample_length ([0, 1, 0, 1] : List ℚ) 2 1
    (by decide) (by decide) (by decide)
  simpa using h

/-- Evaluation of get_or_create on an empty slot: it takes the load path. -/
theorem get_or_create_none {fe : WhisperModelSize → Bool} {st : WhisperCacheState}
    (hs : st.slot = none) (size : WhisperModelSize) :
    get_or_create fe st size = loadModel fe st size := by
  unfold get_or_create
  rw [hs]

/-- Evaluation of get_or_create on a slot holding the requested size: the
cached handle is returned and the state is untouched. -/
theorem get_or_create_cached {fe : WhisperModelSize → Bool} {st : WhisperCacheState}
    {size : WhisperModelSize} {h : Nat} (hs : st.slot = some (size, h)) :
    get_or_create fe st size = Except.ok (h, st) := by
  unfold get_or_create
  rw [hs]
  simp

/-- Evaluation of get_or_create on a slot holding a different size: it
takes the load path. -/
theorem get_or_create_mismatch {fe : WhisperModelSize → Bool} {st : WhisperCacheState}
    {cs : WhisperModelSize} {ch : Nat} {size : WhisperModelSize}
    (hs : st.slot = some (cs, ch)) (hcs : cs ≠ size) :
    get_or_create fe st size = loadModel fe st size := by
  unfold get_or_create
  rw [hs]
  simp [hcs]

/-- Characterization of a successful get_or_create call: either the slot
already held the requested size and is returned untouched, or a fresh
handle is loaded and the slot is replaced. -/
theorem get_or_create_ok {fe : WhisperModelSize → Bool} {st : WhisperCacheState}
    {size : WhisperModelSize} {h' : Nat} {st' : WhisperCacheState}
    (e : get_or_create fe st size = Except.ok (h', st')) :
    (st.slot = some (size, h') ∧ st' = st) ∨
    (h' = st.nextHandle ∧
      st' = ⟨some (size, st.nextHandle), st.nextHandle + 1⟩) := by
  rcases hs : st.slot with _ | ⟨cs, ch⟩
  · rw [get_or_create_none hs] at e
    unfold loadModel at e
    split at e
    · simp only [Except.ok.injEq, Prod.mk.injEq] at e
      right
      exact ⟨e.1.symm, e.2.symm⟩
    · cases e
  · by_cases hcs : cs = size
    · subst hcs
      rw [get_or_create_cached hs] at e
      simp only [Except.ok.injEq, Prod.mk.injEq] at e
      left
      exact ⟨by rw [e.1], e.2.symm⟩
    · rw [get_or_create_mismatch hs hcs] at e
      unfold loadModel at e
      split at e
      · simp only [Except.ok.injEq, Prod.mk.injEq] at e
        right
        exact ⟨e.1.symm, e.2.symm⟩
      · cases e

/-- C5: after get_or_create(Base) succeeds and then get_or_create(Small)
succeeds, the handle returned for Small is not the Base handle and the
single cache slot holds exactly the Small entry. -/
theorem cache_eviction (fe : WhisperModelSize → Bool)
    (st st1 st2 : WhisperCacheState) (h1 h2 : Nat)
    (hwf : st.WF)
    (e1 : get_or_create fe st .Base = Except.ok (h1, st1))
    (e2 : get_or_create fe st1 .Small = Except.ok (h2, st2)) :
    h2 ≠ h1 ∧ st2.slot = some (.Small, h2) := by
  rcases get_or_create_ok e1 with ⟨hs1, rfl⟩ | ⟨rfl, rfl⟩
  · rcases get_or_create_ok e2 with ⟨hs2, rfl⟩ | ⟨rfl, rfl⟩
    · rw [hs1] at hs2
      simp at hs2
    · exact ⟨Nat.ne_of_gt (hwf _ _ hs1), rfl⟩
  · rcases get_or_create_ok e2 with ⟨hs2, rfl⟩ | ⟨rfl, rfl⟩
    · simp at hs2
    · exact ⟨by simp, rfl⟩

/-- C5 witness: from a cold cache with all model files present, loading
Base gives handle 0 and then loading Small gives the distinct handle 1,
with the slot holding only the Small entry. -/
theorem cache_eviction_witness : (1 : Nat) ≠ 0 ∧
    (⟨some (.Small, 1), 2⟩ : WhisperCacheState).slot = some (.Small, 1) :=
  cache_eviction (fun _ => true) ⟨none, 0⟩ ⟨some (.Base, 0), 1⟩
    ⟨some (.Small, 1), 2⟩ 0 1 (fun s h hyp => by cases hyp) rfl rfl

/-- C10: a download whose byte stream fails after the output file was
created returns the error while the truncated file is still present at
the canonical path — the code does not delete partial output on failure,
contradicting the spec requirement. -/
theorem download_partial_file_left :
    download_model ⟨none⟩ [Except.ok [1, 2], Except.error "connection reset"]
      = (Except.error "Download error: connection reset", ⟨some [1, 2]⟩) ∧
    (⟨some [1, 2]⟩ : ModelStore).fileAt ≠ none := by
  exact ⟨rfl, by simp⟩

/-- C2: the code emits no action at all for "the report is done".  The
trailing-pattern branch demands that no complete keyword matched, yet
every trailing completion suffix contains one of "done", "finished",
"completed", so the branch is unreachable; the keyword path then finds
"done" at the end of the utterance and is left with an empty remainder. -/
theorem trailing_pattern_example_dead :
    parse_transcript_to_actions ("the report is done".toList) = [] := by
  decide

/-- C1 counterexample: "delete add" contains a remove keyword and an add
keyword and takes neither the trailing-pattern nor the no-keyword path,
yet the extractor emits no action at all (rather than a single Remove),
because the remainder after the first matched keyword cleans to empty. -/
theorem remove_priority_counterexample :
    hasRemoveKw (lowerStr ("delete add".toList)) = true ∧
    hasAddKw (lowerStr ("delete add".toList)) = true ∧
    parse_transcript_to_actions ("delete add".toList) = [] := by
  decide

/-- C1 amended: when the lowercased utterance contains a remove keyword
and an add keyword, the extractor emits at most one action, and any
emitted action is a Remove — never an Add — by the fixed priority
Remove > Complete > Add; it emits no action when the cleaned remainder is
empty. -/
theorem remove_priority (s : Str)
    (hr : hasRemoveKw (lowerStr s) = true)
    (ha : hasAddKw (lowerStr s) = true) :
    (parse_transcript_to_actions s).length ≤ 1 ∧
    ∀ a ∈ parse_transcript_to_actions s, ∃ t, a = TaskAction.Remove t := by
  unfold parse_transcript_to_actions
  simp only [hr, ha, Bool.not_true, Bool.and_false, Bool.false_and,
    Bool.false_eq_true, if_false, if_true]
  by_cases he : (extract_task_description s).isEmpty
  · simp [he]
  · refine ⟨by simp [he], ?_⟩
    intro a haa
    simp only [he, Bool.false_eq_true, if_false, List.mem_singleton] at haa
    exact ⟨_, haa⟩

/-- C1 witness: "delete the add milk" contains both a remove and an add
keyword and yields the single action Remove "Milk". -/
theorem remove_priority_witness :
    hasRemoveKw (lowerStr ("delete the add milk".toList)) = true ∧
    hasAddKw (lowerStr ("delete the add milk".toList)) = true ∧
    ((parse_transcript_to_actions ("delete the add milk".toList)).length ≤ 1 ∧
      ∀ a ∈ parse_transcript_to_actions ("delete the add milk".toList),
        ∃ t, a = TaskAction.Remove t) :=
  ⟨by decide, by decide, remove_priority _ (by decide) (by decide)⟩

/-- C3 counterexample: on "buy milk, call mom and finish the report" the
third Add action carries the text "Finish the report", not the claimed
"Finish report" — the cleaner strips only a leading determiner, so the
internal "the" survives. -/
theorem no_keyword_split_counterexample :
    parse_transcript_to_actions ("buy milk, call mom and finish the report".toList) =
      [TaskAction.Add ("Buy milk".toList), TaskAction.Add ("Call mom".toList),
       TaskAction.Add ("Finish the report".toList)] ∧
    ("Finish the report".toList : Str) ≠ "Finish report".toList := by
  decide

/-- C3 amended: when no keyword family matches and no trailing pattern
applies, the extractor splits on commas, periods, semicolons and the
conjunctions "and"/"и", cleans each part, and emits one Add per part that
is nonempty, at least 3 bytes and not noise; on the example input the
three texts are "Buy milk", "Call mom" and "Finish the report". -/
theorem no_keyword_split (s : Str)
    (hc : hasCompleteKw (lowerStr s) = false)
    (hr : hasRemoveKw (lowerStr s) = false)
    (ha : hasAddKw (lowerStr s) = false)
    (ht : trailingDonePattern (lowerStr s) = false) :
    parse_transcript_to_actions s = noKeywordSplitResult s := by
  unfold parse_transcript_to_actions noKeywordSplitResult
  simp [hc, hr, ha, ht]

/-- C3 witness: the example input takes the no-keyword path and the split
result evaluates to the three Add actions. -/
theorem no_keyword_split_witness :
    parse_transcript_to_actions ("buy milk, call mom and finish the report".toList) =
      noKeywordSplitResult ("buy milk, call mom and finish the report".toList) ∧
    noKeywordSplitResult ("buy milk, call mom and finish the report".toList) =
      [TaskAction.Add ("Buy milk".toList), TaskAction.Add ("Call mom".toList),
       TaskAction.Add ("Finish the report".toList)] :=
  ⟨no_keyword_split _ (by decide) (by decide) (by decide) (by decide), by decide⟩

/-- The keyword loop of extract_task_description picks the first keyword
in table order that occurs anywhere, then drops through its leftmost
occurrence. -/
theorem dropThroughFirstKw_eq (tl tr : Str) (kws : List Str) :
    dropThroughFirstKw tl tr kws =
      match kws.find? (fun kw => containsSub tl kw) with
      | some kw => tr.drop ((findSub tl kw).getD 0 + kw.length)
      | none => tr := by
  induction kws with
  | nil => rfl
  | cons kw rest ih =>
    cases hf : findSub tl kw with
    | some i =>
      have hcs : containsSub tl kw = true := by simp [containsSub, hf]
      simp [dropThroughFirstKw, hf, List.find?_cons, hcs]
    | none =>
      have hcs : containsSub tl kw = false := by simp [containsSub, hf]
      simp [dropThroughFirstKw, hf, List.find?_cons, hcs, ih]

/-- C4 counterexample: in "delete the must do item" the remove keyword
"delete" occurs at the earliest position (index 0), but the extractor
scans the keyword table in a fixed order in which the add keyword "must"
comes first, so the emitted action text is "Do item" rather than the
"Must do item" demanded by the earliest-position rule. -/
theorem keyword_case_counterexample :
    parse_transcript_to_actions ("delete the must do item".toList) =
      [TaskAction.Remove ("Do item".toList)] ∧
    parse_transcript_to_actions ("delete the must do item".toList) ≠
      [TaskAction.Remove ("Must do item".toList)] := by
  decide

/-- C4 amended: in the keyword case the extractor locates the first
keyword in a fixed scan order over the table (add keywords, then complete
keywords, then remove keywords) that occurs anywhere in the lowercased
utterance — not the keyword at the earliest text position — drops
everything through its leftmost occurrence, cleans the remainder, and
emits at most one action whose kind follows the priority
Remove > Complete > Add, or none when the cleaned remainder is empty. -/
theorem keyword_case (s : Str)
    (h : hasCompleteKw (lowerStr s) = true ∨ hasRemoveKw (lowerStr s) = true ∨
        hasAddKw (lowerStr s) = true) :
    parse_transcript_to_actions s = keywordCaseResult s ∧
    (parse_transcript_to_actions s).length ≤ 1 := by
  have hmain : parse_transcript_to_actions s = keywordCaseResult s := by
    simp only [parse_transcript_to_actions, keywordCaseResult,
      extract_task_description]
    rw [dropThroughFirstKw_eq]
    rcases h with h | h | h <;> simp [h]
  refine ⟨hmain, ?_⟩
  rw [hmain]
  simp only [keywordCaseResult]
  split
  · simp
  · split
    · simp
    · split
      · simp
      · split <;> simp

/-- C4 witness: "delete the meeting" takes the keyword case and yields
the single action Remove "Meeting". -/
theorem keyword_case_witness :
    (parse_transcript_to_actions ("delete the meeting".toList) =
      keywordCaseResult ("delete the meeting".toList) ∧
     (parse_transcript_to_actions ("delete the meeting".toList)).length ≤ 1) ∧
    keywordCaseResult ("delete the meeting".toList) =
      [TaskAction.Remove ("Meeting".toList)] :=
  ⟨keyword_case _ (Or.inr (Or.inl (by decide))), by decide⟩

/-- C9 counterexample: cleaning "a to do list" strips both "a" and "to"
in one pass over the fixed list, yielding "Do list" instead of the
"To do list" a strip-exactly-one rule would produce. -/
theorem clean_counterexample :
    clean_task_text ("a to do list".toList) = "Do list".toList ∧
    clean_task_text ("a to do list".toList) ≠ "To do list".toList := by
  decide

/-- The Rust stripping loop over the table is one in-order pass. -/
theorem foldl_stripLeadWords (ps : List Str) : ∀ r : Str,
    ps.foldl (fun r p => if p.isPrefixOf (lowerStr r) then r.drop p.length else r) r
      = stripLeadWords ps r := by
  induction ps with
  | nil => intro r; rfl
  | cons p ps ih =>
    intro r
    simp only [List.foldl_cons, stripLeadWords]
    exact ih _

/-- C9 amended: cleaning trims whitespace, then makes one in-order pass
over the fixed list ("the", "a", "an", "to", "that", "which"), stripping
each entry that matches at the moment it is checked — so up to one strip
per entry but possibly several in total — then strips all trailing
punctuation among . ! ? , capitalizes the first character, and trims. -/
theorem clean_decomposition (s : Str) :
    clean_task_text s =
      trimStr (capFirst (trimTrailingPunct
        (stripLeadWords prefixes_to_remove (trimStr s)))) := by
  simp only [clean_task_text]
  rw [foldl_stripLeadWords]
  rcases htp : trimTrailingPunct (stripLeadWords prefixes_to_remove (trimStr s))
    with _ | ⟨c, rest⟩ <;> simp [capFirst, htp]

/-- C8: every call of find_and_complete_task deadlocks once it passes the
initial fuzzy search: the guard taken at database.rs line 152 is still
held when toggle_task (match path) or add_task (fallback path) locks the
same non-reentrant connection mutex again, so no completed record is ever
produced or returned, on any store, text and time. -/
theorem find_and_complete_deadlock (db : Database) (text : Str) (now : Nat) :
    find_and_complete_task db text now = DbOutcome.deadlock := by
  unfold find_and_complete_task
  by_cases h : db.connLocked
  · simp [h]
  · simp only [h, Bool.false_eq_true, if_false]
    cases db.tasks.find? (fun t => !t.completed && likeMatch t.text text) <;>
      simp [toggle_task, add_task]

end FlowState
